import Mathlib

/-!
Verification of the static code analyzer in
analyzer/code_analyzer.py.  The program scans a source file twice
(line by line, and over its abstract syntax tree), runs a fixed set of
checks, sorts the resulting diagnostics by (line number, code) and
prints them.  We embed the program shallowly: lines are lists of
characters, the syntax tree is an inductive type mirroring the ast
node shapes the checks inspect, and the single piece of mutable state
(the class attribute blank_lines of CheckTooManyBlankLines) is
threaded explicitly.  The source-text parser itself is an external
library (ast.parse); a file is therefore modelled as its list of lines
together with the parse result, an Option tree that is none exactly
when ast.parse would raise.
-/

namespace CodeAnalyzer

/-- A single quote character, used when building diagnostic messages. -/
def sq : String := "\x27"

/-- View of a string literal as the list of its characters. -/
def pystr (s : String) : List Char := s.data

/-- Whitespace characters recognised by str.strip and str.rstrip
(ASCII subset, which covers every input the checks compare against). -/
def isPySpace (c : Char) : Bool :=
  c = ' ' || c = '\t' || c = '\n' || c = '\r' || c = '\x0B' || c = '\x0C'

/-- Embedding of str.rstrip with no argument: remove trailing whitespace. -/
def pyRstrip (l : List Char) : List Char :=
  (l.reverse.dropWhile isPySpace).reverse

/-- Embedding of str.lstrip applied to a space argument: remove leading
space characters only. -/
def pyLstripSpaces (l : List Char) : List Char :=
  l.dropWhile (fun c => c = ' ')

/-- Embedding of str.strip with no argument: remove whitespace at both ends. -/
def pyStrip (l : List Char) : List Char :=
  ((l.dropWhile isPySpace).reverse.dropWhile isPySpace).reverse

/-- Does the second list start with the first one? -/
def startsWithSeq : List Char → List Char → Bool
  | [], _ => true
  | _ :: _, [] => false
  | p :: ps, c :: cs => p = c && startsWithSeq ps cs

/-- Embedding of the Python substring test (pat in l). -/
def hasSub (pat : List Char) : List Char → Bool
  | [] => startsWithSeq pat []
  | c :: cs => startsWithSeq pat (c :: cs) || hasSub pat cs

/-- Embedding of str.find for a single character: index of the first
occurrence, or -1 when the character does not occur. -/
def pyFind (c : Char) (l : List Char) : Int :=
  match l.findIdx? (fun x => x = c) with
  | some i => (i : Int)
  | none => -1

/-- Embedding of the Python slice l[start:], including the negative-index
convention (a negative start counts from the end, clamped at 0). -/
def pySliceFrom (l : List Char) (start : Int) : List Char :=
  if 0 ≤ start then l.drop start.toNat
  else l.drop ((l.length + start).toNat)

/-- Embedding of str.lower, per character (the codes and keywords compared
are ASCII). -/
def pyLower (l : List Char) : List Char :=
  l.map Char.toLower

/-- One reported violation, as built by Analyzer.exec: the line number,
the code of the check and the fully formatted message line. -/
structure Diag where
  lineno : Nat
  code : String
  message : String
  deriving Repr, DecidableEq

/-- Message formatting of Analyzer.exec. -/
def mkMessage (path : String) (lineno : Nat) (code msg : String) : String :=
  path ++ ": Line " ++ toString lineno ++ ": " ++ code ++ " " ++ msg

/-! ### The seven line checks -/

/-- CheckTooLong.check: the line, with trailing whitespace removed,
is over 79 characters long. -/
def check001 (l : List Char) : Bool :=
  (pyRstrip l).length > 79

/-- CheckIndentationIsNotAMultipleOfFour.check: the number of characters
removed by lstrip of a space argument is not a multiple of four. -/
def check002 (l : List Char) : Bool :=
  (l.length - (pyLstripSpaces l).length) % 4 != 0

/-- The single quote character, named to keep character literals plain. -/
def singleQuoteChar : Char := Char.ofNat 39

/-- Loop body of CheckUnnecessarySemicolon.check: scan the characters,
stop at a hash, toggle the two quote flags, and report a semicolon seen
while both flags are off.  The flag updates mirror the statement order
of the source (double quote toggled first, then single quote tested
against the updated double-quote flag). -/
def check003core : List Char → Bool → Bool → Bool
  | [], _, _ => false
  | c :: cs, sq1, dq1 =>
    if c = '#' then false
    else
      let dq2 := if c = '"' && !sq1 then !dq1 else dq1
      let sq2 := if c = singleQuoteChar && !dq2 then !sq1 else sq1
      if c = ';' && !(sq2 || dq2) then true
      else check003core cs sq2 dq2

/-- CheckUnnecessarySemicolon.check. -/
def check003 (l : List Char) : Bool :=
  check003core l false false

/-- Does the line start with a hash character? -/
def startsHash : List Char → Bool
  | '#' :: _ => true
  | _ => false

/-- CheckLessThanTwoSpacesBeforeInlineComments.check: the line does not
start with a hash, contains a hash, and does not contain the three
character sequence space, space, hash. -/
def check004 (l : List Char) : Bool :=
  !startsHash l && l.contains '#' && !hasSub (pystr "  #") l

/-- CheckTodoFound.check: the slice of the line from the first hash
(or from index -1 when there is none, per str.find) contains the word
todo case-insensitively. -/
def check005 (l : List Char) : Bool :=
  hasSub (pystr "todo") (pyLower (pySliceFrom l (pyFind '#' l)))

/-- CheckTooManyBlankLines.check, with the class attribute blank_lines
made explicit: on a blank line the counter is incremented and the check
does not fire; on a non-blank line the check fires when the counter
exceeds 2, and the counter is reset to 0. -/
def check006step (l : List Char) (blanks : Nat) : Bool × Nat :=
  if pyStrip l = [] then (false, blanks + 1)
  else (decide (blanks > 2), 0)

/-- Is the next portion of the line two spaces (the tail of the regular
expression of check 007, which demands at least two spaces after the
keyword)? -/
def twoSpacesNext : List Char → Bool
  | ' ' :: ' ' :: _ => true
  | _ => false

/-- CheckTooManySpacesAfterConstructionName.check: the anchored regular
expression of optional leading spaces, the keyword class or def, then
two or more spaces.  Returns the captured keyword when the line matches. -/
def check007kw (l : List Char) : Option String :=
  let r := l.dropWhile (fun c => c = ' ')
  if startsWithSeq (pystr "class") r then
    if twoSpacesNext (r.drop 5) then some "class" else none
  else if startsWithSeq (pystr "def") r then
    if twoSpacesNext (r.drop 3) then some "def" else none
  else none

/-- CheckTooManySpacesAfterConstructionName.check as a predicate. -/
def check007 (l : List Char) : Bool :=
  (check007kw l).isSome

/-- Message of check 007, formatted with the captured keyword exactly when
the check fires (the class attribute is written before every firing
return, so it behaves as this pure function). -/
def check007msg (l : List Char) : String :=
  match check007kw l with
  | some kw => "Too many spaces after " ++ sq ++ kw ++ sq
  | none => ""

/-- One line check: its code, its predicate-with-state (the state is the
blank-line counter, which only check 006 reads or writes) and its
message as a function of the line. -/
structure LineCheck where
  code : String
  step : List Char → Nat → Bool × Nat
  msg : List Char → String

/-- Lift a stateless predicate to the stateful interface. -/
def pureStep (p : List Char → Bool) : List Char → Nat → Bool × Nat :=
  fun l s => (p l, s)

/-- The registered line checks, in the registration order of the source
(definition order of the subclasses of LineChecker). -/
def lineChecks : List LineCheck :=
  [ ⟨"S001", pureStep check001, fun _ => "Too long"⟩,
    ⟨"S002", pureStep check002, fun _ => "Indentation is not a multiple of four"⟩,
    ⟨"S003", pureStep check003, fun _ => "Unnecessary semicolon"⟩,
    ⟨"S004", pureStep check004,
      fun _ => "At least two spaces required before inline comments"⟩,
    ⟨"S005", pureStep check005, fun _ => "TODO found"⟩,
    ⟨"S006", check006step, fun _ => "Too many blank lines"⟩,
    ⟨"S007", pureStep check007, check007msg⟩ ]

/-- Analyzer.exec for a line check: run the predicate and build the
diagnostic dictionary when it fires. -/
def execCheckLine (path : String) (c : LineCheck) (l : List Char) (i : Nat)
    (s : Nat) : Option Diag × Nat :=
  let r := c.step l s
  (if r.1 then some ⟨i, c.code, mkMessage path i c.code (c.msg l)⟩ else none,
   r.2)

/-- Inner loop of LineChecker.execute_checks: run every registered line
check on one line, collecting the diagnostics and threading the counter. -/
def runChecksOnLine (path : String) (cs : List LineCheck) (l : List Char)
    (i : Nat) (s : Nat) : List Diag × Nat :=
  match cs with
  | [] => ([], s)
  | c :: rest =>
    let r := execCheckLine path c l i s
    let rs := runChecksOnLine path rest l i r.2
    (r.1.toList ++ rs.1, rs.2)

/-- LineChecker.execute_checks: enumerate the lines starting at 1 and run
every line check on each line in order. -/
def lineExecuteChecks (path : String) (lines : List (List Char)) (i : Nat)
    (s : Nat) : List Diag × Nat :=
  match lines with
  | [] => ([], s)
  | l :: rest =>
    let r := runChecksOnLine path lineChecks l i s
    let rs := lineExecuteChecks path rest (i + 1) r.2
    (r.1 ++ rs.1, rs.2)

/-! ### The syntax tree and the five tree checks

The tree mirrors the ast node shapes the checks inspect.  Statement and
expression nodes carry their lineno attribute.  The arguments and arg
helper nodes of a function definition carry no position information and
trigger no check, so their payload (parameter names, default value
expressions) is stored directly in the function definition node; the
default value expressions are still visited as children, like ast.walk
visits them.  Node kinds the checks never match (operators, keywords
and so on) are represented by otherStmt and otherExpr. -/

inductive PyNode where
  | module (body : List PyNode)
  | classDef (lineno : Nat) (name : String) (body : List PyNode)
  | functionDef (lineno : Nat) (name : String) (argnames : List String)
      (defaults : List PyNode) (kwDefaults : List PyNode) (body : List PyNode)
  | asyncFunctionDef (lineno : Nat) (name : String) (argnames : List String)
      (defaults : List PyNode) (kwDefaults : List PyNode) (body : List PyNode)
  | assign (lineno : Nat) (targets : List PyNode) (value : PyNode)
  | augAssign (lineno : Nat) (target : PyNode) (value : PyNode)
  | annAssign (lineno : Nat) (target : PyNode) (value : PyNode)
  | name (lineno : Nat) (id : String)
  | constant (lineno : Nat)
  | dictLit (lineno : Nat) (elts : List PyNode)
  | listLit (lineno : Nat) (elts : List PyNode)
  | setLit (lineno : Nat) (elts : List PyNode)
  | tupleLit (lineno : Nat) (elts : List PyNode)
  | otherStmt (lineno : Nat) (children : List PyNode)
  | otherExpr (lineno : Nat) (children : List PyNode)

/-- Is the node an instance of ast.expr or ast.stmt?  Only those carry
the lineno attribute read by the tree engine; the module node does not. -/
def isStmtOrExpr : PyNode → Bool
  | .module _ => false
  | _ => true

/-- The lineno attribute of a statement or expression node (0 for the
module node, which the engine never reads because isStmtOrExpr is
false there). -/
def nodeLineno : PyNode → Nat
  | .module _ => 0
  | .classDef ln _ _ => ln
  | .functionDef ln _ _ _ _ _ => ln
  | .asyncFunctionDef ln _ _ _ _ _ => ln
  | .assign ln _ _ => ln
  | .augAssign ln _ _ => ln
  | .annAssign ln _ _ => ln
  | .name ln _ => ln
  | .constant ln => ln
  | .dictLit ln _ => ln
  | .listLit ln _ => ln
  | .setLit ln _ => ln
  | .tupleLit ln _ => ln
  | .otherStmt ln _ => ln
  | .otherExpr ln _ => ln

/-- Embedding of re.match against the anchored class-name pattern of the
source (a lowercase letter, digit or underscore, then word characters):
re.match succeeds exactly when the first character is in that class. -/
def matchesNotCamelCase (s : String) : Bool :=
  match s.data with
  | [] => false
  | c :: _ => ('a' ≤ c && c ≤ 'z') || ('0' ≤ c && c ≤ '9') || c = '_'

/-- Embedding of re.match against the anchored snake-case-violation
pattern of the source (an uppercase letter or digit, then word
characters). -/
def matchesNotSnakeCase (s : String) : Bool :=
  match s.data with
  | [] => false
  | c :: _ => ('A' ≤ c && c ≤ 'Z') || ('0' ≤ c && c ≤ '9')

/-- CheckClassNameShouldBeWrittenInCamelCase.check. -/
def check008 : PyNode → Bool
  | .classDef _ nm _ => matchesNotCamelCase nm
  | _ => false

/-- CheckFunctionNameShouldBeWrittenInSnakeCase.check. -/
def check009 : PyNode → Bool
  | .functionDef _ nm _ _ _ _ => matchesNotSnakeCase nm
  | .asyncFunctionDef _ nm _ _ _ _ => matchesNotSnakeCase nm
  | _ => false

/-- CheckArgumentNameShouldBeWrittenInSnakeCase.check: some positional
parameter name (node.args.args) violates the snake-case pattern. -/
def check010 : PyNode → Bool
  | .functionDef _ _ args _ _ _ => args.any matchesNotSnakeCase
  | .asyncFunctionDef _ _ args _ _ _ => args.any matchesNotSnakeCase
  | _ => false

/-- Target selection of CheckVariableShouldBeWrittenInSnakeCase.check:
the first target of an assignment, or the target of an augmented or
annotated assignment.  Real assignment nodes always have a target, so
head? is some there. -/
def assignTarget : PyNode → Option PyNode
  | .assign _ targets _ => targets.head?
  | .augAssign _ t _ => some t
  | .annAssign _ t _ => some t
  | _ => none

/-- CheckVariableShouldBeWrittenInSnakeCase.check. -/
def check011 (n : PyNode) : Bool :=
  match assignTarget n with
  | some (.name _ id) => matchesNotSnakeCase id
  | _ => false

/-- Membership in the mutable tuple of CheckDefaultArgumentValueIsMutable:
an ast.Dict, ast.List or ast.Set literal. -/
def isMutableLiteral : PyNode → Bool
  | .dictLit _ _ => true
  | .listLit _ _ => true
  | .setLit _ _ => true
  | _ => false

/-- CheckDefaultArgumentValueIsMutable.check: some positional default
value (node.args.defaults) is a mutable literal. -/
def check012 : PyNode → Bool
  | .functionDef _ _ _ defaults _ _ => defaults.any isMutableLiteral
  | .asyncFunctionDef _ _ _ defaults _ _ => defaults.any isMutableLiteral
  | _ => false

/-- Captured token of the message of a tree check, where the message
template embeds one (the class attribute is written before every firing
return, so it behaves as a pure function of the node). -/
def treeMsg008 : PyNode → String
  | .classDef _ nm _ => "Class name " ++ sq ++ nm ++ sq ++ " should use CamelCase"
  | _ => ""

def treeMsg009 : PyNode → String
  | .functionDef _ nm _ _ _ _ =>
      "Function name " ++ sq ++ nm ++ sq ++ " should use snake_case"
  | .asyncFunctionDef _ nm _ _ _ _ =>
      "Function name " ++ sq ++ nm ++ sq ++ " should use snake_case"
  | _ => ""

def treeMsg010 : PyNode → String
  | .functionDef _ _ args _ _ _ =>
      match args.find? matchesNotSnakeCase with
      | some a => "Argument name " ++ sq ++ a ++ sq ++ " should be snake_case"
      | none => ""
  | .asyncFunctionDef _ _ args _ _ _ =>
      match args.find? matchesNotSnakeCase with
      | some a => "Argument name " ++ sq ++ a ++ sq ++ " should be snake_case"
      | none => ""
  | _ => ""

def treeMsg011 (n : PyNode) : String :=
  match assignTarget n with
  | some (.name _ id) =>
      "Variable " ++ sq ++ id ++ sq ++ " in function should be snake_case"
  | _ => ""

/-- One tree check: code, predicate over a node, message. -/
structure TreeCheck where
  code : String
  fires : PyNode → Bool
  msg : PyNode → String

/-- The registered tree checks, in the registration order of the source
(definition order of the subclasses of AstChecker). -/
def treeChecks : List TreeCheck :=
  [ ⟨"S008", check008, treeMsg008⟩,
    ⟨"S009", check009, treeMsg009⟩,
    ⟨"S010", check010, treeMsg010⟩,
    ⟨"S011", check011, treeMsg011⟩,
    ⟨"S012", check012, fun _ => "Default argument value is mutable"⟩ ]

/-- Analyzer.exec for the tree checks at one node, given the running
current-line value of the engine. -/
def nodeDiags (path : String) (n : PyNode) (lineno : Nat) : List Diag :=
  treeChecks.filterMap fun c =>
    if c.fires n then some ⟨lineno, c.code, mkMessage path lineno c.code (c.msg n)⟩
    else none

mutual

/-- Node visit of AstChecker.execute_checks: update the running line
value when the node is a statement or expression, run every tree check
there, then visit the children.  The source walks the tree with
ast.walk; the analyzer sorts all diagnostics downstream and every
check-firing node carries its own lineno, so the complete pre-order
traversal used here is observationally equivalent. -/
def walkNode (path : String) (n : PyNode) (ln : Nat) : List Diag × Nat :=
  match n with
  | .module body =>
    let here := nodeDiags path (.module body) ln
    let rest := walkList path body ln
    (here ++ rest.1, rest.2)
  | .classDef lno nm body =>
    let here := nodeDiags path (.classDef lno nm body) lno
    let rest := walkList path body lno
    (here ++ rest.1, rest.2)
  | .functionDef lno nm args ds kds body =>
    let here := nodeDiags path (.functionDef lno nm args ds kds body) lno
    let r1 := walkList path ds lno
    let r2 := walkList path kds r1.2
    let r3 := walkList path body r2.2
    (here ++ r1.1 ++ r2.1 ++ r3.1, r3.2)
  | .asyncFunctionDef lno nm args ds kds body =>
    let here := nodeDiags path (.asyncFunctionDef lno nm args ds kds body) lno
    let r1 := walkList path ds lno
    let r2 := walkList path kds r1.2
    let r3 := walkList path body r2.2
    (here ++ r1.1 ++ r2.1 ++ r3.1, r3.2)
  | .assign lno targets v =>
    let here := nodeDiags path (.assign lno targets v) lno
    let r1 := walkList path targets lno
    let r2 := walkNode path v r1.2
    (here ++ r1.1 ++ r2.1, r2.2)
  | .augAssign lno t v =>
    let here := nodeDiags path (.augAssign lno t v) lno
    let r1 := walkNode path t lno
    let r2 := walkNode path v r1.2
    (here ++ r1.1 ++ r2.1, r2.2)
  | .annAssign lno t v =>
    let here := nodeDiags path (.annAssign lno t v) lno
    let r1 := walkNode path t lno
    let r2 := walkNode path v r1.2
    (here ++ r1.1 ++ r2.1, r2.2)
  | .name lno id =>
    (nodeDiags path (.name lno id) lno, lno)
  | .constant lno =>
    (nodeDiags path (.constant lno) lno, lno)
  | .dictLit lno elts =>
    let here := nodeDiags path (.dictLit lno elts) lno
    let rest := walkList path elts lno
    (here ++ rest.1, rest.2)
  | .listLit lno elts =>
    let here := nodeDiags path (.listLit lno elts) lno
    let rest := walkList path elts lno
    (here ++ rest.1, rest.2)
  | .setLit lno elts =>
    let here := nodeDiags path (.setLit lno elts) lno
    let rest := walkList path elts lno
    (here ++ rest.1, rest.2)
  | .tupleLit lno elts =>
    let here := nodeDiags path (.tupleLit lno elts) lno
    let rest := walkList path elts lno
    (here ++ rest.1, rest.2)
  | .otherStmt lno children =>
    let here := nodeDiags path (.otherStmt lno children) lno
    let rest := walkList path children lno
    (here ++ rest.1, rest.2)
  | .otherExpr lno children =>
    let here := nodeDiags path (.otherExpr lno children) lno
    let rest := walkList path children lno
    (here ++ rest.1, rest.2)

/-- Visit of a child list, threading the running line value. -/
def walkList (path : String) (ns : List PyNode) (ln : Nat) : List Diag × Nat :=
  match ns with
  | [] => ([], ln)
  | n :: rest =>
    let r1 := walkNode path n ln
    let r2 := walkList path rest r1.2
    (r1.1 ++ r2.1, r2.2)

end

/-- AstChecker.execute_checks on an already parsed tree: the running
line value starts at 0. -/
def astDiags (path : String) (t : PyNode) : List Diag :=
  (walkNode path t 0).1

/-! ### Sorting and the reporter -/

/-- Lexicographic comparison of two character lists by code point,
matching the comparison Python applies to the code strings inside the
sort key tuples. -/
def charListLe : List Char → List Char → Bool
  | [], _ => true
  | _ :: _, [] => false
  | a :: as, b :: bs =>
    if a.toNat < b.toNat then true
    else if a.toNat = b.toNat then charListLe as bs
    else false

/-- The key comparison of Analyzer.run: the tuple (lineno, code) compared
lexicographically, 'at most' direction. -/
def diagLeB (a b : Diag) : Bool :=
  if a.lineno < b.lineno then true
  else if a.lineno = b.lineno then charListLe a.code.data b.code.data
  else false

/-- Stable insertion of a diagnostic into an already sorted list: the
new element goes before the first existing element it is at most equal
to, so elements with equal keys keep their original relative order,
like the stable sort of Python. -/
def insertSorted (a : Diag) : List Diag → List Diag
  | [] => [a]
  | b :: l => if diagLeB a b then a :: b :: l else b :: insertSorted a l

/-- The sorted call of Analyzer.run, as a stable insertion sort over the
key comparison diagLeB. -/
def sortResults : List Diag → List Diag
  | [] => []
  | d :: ds => insertSorted d (sortResults ds)

/-- A file as the analyzer sees it: its physical lines (each including
its trailing newline, as iteration over a Python file object yields
them) and the result of ast.parse on its text, none exactly when the
parser raises a SyntaxError.  The parser is the external collaborator
of the program; both engines read the same unchanged file. -/
structure PyFile where
  lines : List (List Char)
  tree : Option PyNode

/-- The sorted diagnostic list Analyzer.run builds for one file when the
parse succeeds: line-engine results first (LineChecker is registered
before AstChecker), then tree-engine results, then the sort. -/
def runFileDiags (st : Nat) (path : String) (lines : List (List Char))
    (t : PyNode) : List Diag :=
  sortResults ((lineExecuteChecks path lines 1 st).1 ++ astDiags path t)

/-- Analyzer.run: run both engines over the file and print the sorted
messages.  The blank-line counter state is explicit: it enters as st
and leaves as the value the line scan leaves behind (the source never
resets it).  When ast.parse raises, the exception propagates out of
run before anything is printed, which the error value models; the line
scan has already run at that point, so its counter update survives. -/
def runFile (st : Nat) (path : String) (f : PyFile) :
    Except Unit (List String) × Nat :=
  let lr := lineExecuteChecks path f.lines 1 st
  match f.tree with
  | none => (Except.error (), lr.2)
  | some t =>
    (Except.ok ((sortResults (lr.1 ++ astDiags path t)).map Diag.message), lr.2)

/-- The per-file loop of main over the discovered files: each file is
analyzed and printed in order; an uncaught parse failure aborts the
whole process, so later files are not analyzed.  Returns the printed
lines and whether the process finished normally. -/
def mainRun : List (String × PyFile) → Nat → List String × Bool
  | [], _ => ([], true)
  | (p, f) :: rest, st =>
    match runFile st p f with
    | (Except.error _, _) => ([], false)
    | (Except.ok out, st') =>
      let r := mainRun rest st'
      (out ++ r.1, r.2)

/-! ### Declarative counterparts used to state the claims -/

/-- The number of leading space characters of a line, stated directly. -/
def countLeadingSpaces (l : List Char) : Nat :=
  (l.takeWhile (fun c => c = ' ')).length

/-- One step of the simple per-quote-character toggle: a double quote
outside single quotes flips the double-quote flag, a single quote
outside double quotes flips the single-quote flag, every other
character leaves the state alone. -/
def qtoggle (st : Bool × Bool) (c : Char) : Bool × Bool :=
  let dq := if c = '"' && !st.1 then !st.2 else st.2
  let sqf := if c = singleQuoteChar && !dq then !st.1 else st.1
  (sqf, dq)

/-- The comment-spacing trigger exactly as the claim about check 004
states it: some hash occurs away from column 0 whose two immediately
preceding characters are not both spaces. -/
def claim004fires (l : List Char) : Bool :=
  (List.range l.length).any fun i =>
    (l[i]? == some '#') && decide (0 < i) &&
      !(decide (2 ≤ i) && (l[i - 2]? == some ' ') && (l[i - 1]? == some ' '))

/-- The mutable-default trigger exactly as the claim about check 012
states it: the node is a function or async-function definition and some
default parameter value, keyword-only defaults included, is a mutable
literal. -/
def claim012fires : PyNode → Bool
  | .functionDef _ _ _ ds kds _ => (ds ++ kds).any isMutableLiteral
  | .asyncFunctionDef _ _ _ ds kds _ => (ds ++ kds).any isMutableLiteral
  | _ => false

/-- The statement node kinds at least one tree check can fire on. -/
def isCheckableStmt : PyNode → Bool
  | .classDef _ _ _ => true
  | .functionDef _ _ _ _ _ _ => true
  | .asyncFunctionDef _ _ _ _ _ _ => true
  | .assign _ _ _ => true
  | .augAssign _ _ _ => true
  | .annAssign _ _ _ => true
  | _ => false

mutual

/-- Every statement or expression node of the tree carries a positive
lineno, as every tree produced by ast.parse does. -/
def allPos : PyNode → Bool
  | .module body => allPosList body
  | .classDef ln _ body => decide (1 ≤ ln) && allPosList body
  | .functionDef ln _ _ ds kds body =>
      decide (1 ≤ ln) && allPosList ds && allPosList kds && allPosList body
  | .asyncFunctionDef ln _ _ ds kds body =>
      decide (1 ≤ ln) && allPosList ds && allPosList kds && allPosList body
  | .assign ln targets v => decide (1 ≤ ln) && allPosList targets && allPos v
  | .augAssign ln t v => decide (1 ≤ ln) && allPos t && allPos v
  | .annAssign ln t v => decide (1 ≤ ln) && allPos t && allPos v
  | .name ln _ => decide (1 ≤ ln)
  | .constant ln => decide (1 ≤ ln)
  | .dictLit ln elts => decide (1 ≤ ln) && allPosList elts
  | .listLit ln elts => decide (1 ≤ ln) && allPosList elts
  | .setLit ln elts => decide (1 ≤ ln) && allPosList elts
  | .tupleLit ln elts => decide (1 ≤ ln) && allPosList elts
  | .otherStmt ln children => decide (1 ≤ ln) && allPosList children
  | .otherExpr ln children => decide (1 ≤ ln) && allPosList children

def allPosList : List PyNode → Bool
  | [] => true
  | n :: ns => allPos n && allPosList ns

end

/-! ### Concrete inputs used by the evaluated theorems -/

/-- A file of three blank lines.  Its text parses to an empty module. -/
def fileBlank3 : PyFile :=
  ⟨[pystr "\n", pystr "\n", pystr "\n"], some (.module [])⟩

/-- A file whose single line is an assignment to a well-named variable.
No check fires on it when it is analyzed with fresh state. -/
def fileAssign : PyFile :=
  ⟨[pystr "x = 1\n"], some (.module [.assign 1 [.name 1 "x"] (.constant 1)])⟩

/-- A file whose assignment line is followed by three blank lines. -/
def fileTrailingBlanks : PyFile :=
  ⟨[pystr "x = 1\n", pystr "\n", pystr "\n", pystr "\n"],
   some (.module [.assign 1 [.name 1 "x"] (.constant 1)])⟩

/-- The parse tree of the line that assigns to A and to B in two
statements separated by a semicolon. -/
def treeTwoAssigns : PyNode :=
  .module [.assign 1 [.name 1 "A"] (.constant 1),
           .assign 1 [.name 1 "B"] (.constant 2)]

/-- The lines of that same file. -/
def linesTwoAssigns : List (List Char) :=
  [pystr "A = 1; B = 2\n"]

/-- A function definition whose only default value is the mutable list
literal of a keyword-only parameter, as in a def of f with a bare star
then x defaulting to an empty list. -/
def kwOnlyMutableDefaultFn : PyNode :=
  .functionDef 1 "f" [] [] [.listLit 1 []] [.constant 1]

/-- A small well-positioned tree with one firing node, used to witness
the line-attribution theorem for tree diagnostics. -/
def treeOneAssign : PyNode :=
  .module [.assign 3 [.name 3 "X"] (.constant 3)]

/-! ### Helper lemmas -/

theorem startsWithSeq3_iff (a b d : Char) (l : List Char) :
    startsWithSeq [a, b, d] l = true ↔
      l[0]? = some a ∧ l[1]? = some b ∧ l[2]? = some d := by
  match l with
  | [] => simp [startsWithSeq]
  | [x] => simp [startsWithSeq]
  | [x, y] => simp [startsWithSeq]
  | x :: y :: z :: rest =>
    simp only [startsWithSeq, Bool.and_eq_true, decide_eq_true_eq,
      List.getElem?_cons_zero, List.getElem?_cons_succ, Option.some.injEq,
      and_true]
    exact ⟨fun h => ⟨h.1.symm, h.2.1.symm, h.2.2.symm⟩,
           fun h => ⟨h.1.symm, h.2.1.symm, h.2.2.symm⟩⟩

theorem hasSub_spaces_hash_iff (l : List Char) :
    hasSub (pystr "  #") l = true ↔
      ∃ j : Nat, l[j]? = some ' ' ∧ l[j + 1]? = some ' ' ∧ l[j + 2]? = some '#' := by
  induction l with
  | nil =>
    rw [show hasSub (pystr "  #") [] = false from rfl]
    simp
  | cons c cs ih =>
    show (startsWithSeq (pystr "  #") (c :: cs) || hasSub (pystr "  #") cs) = true ↔ _
    rw [Bool.or_eq_true, ih]
    rw [show pystr "  #" = [' ', ' ', '#'] from rfl, startsWithSeq3_iff]
    constructor
    · rintro (⟨h0, h1, h2⟩ | ⟨j, h0, h1, h2⟩)
      · exact ⟨0, by simpa using h0, by simpa using h1, by simpa using h2⟩
      · exact ⟨j + 1, by simpa using h0, by simpa using h1, by simpa using h2⟩
    · rintro ⟨j, h0, h1, h2⟩
      cases j with
      | zero => exact Or.inl ⟨by simpa using h0, by simpa using h1, by simpa using h2⟩
      | succ j => exact Or.inr ⟨j, by simpa using h0, by simpa using h1, by simpa using h2⟩

theorem qtoggle_semi (s : Bool × Bool) : qtoggle s ';' = s := by
  simp [qtoggle, singleQuoteChar]

theorem check003core_iff (l : List Char) : ∀ s1 s2 : Bool,
    check003core l s1 s2 = true ↔
      ∃ i : Nat, l[i]? = some ';' ∧ (∀ j, j < i → l[j]? ≠ some '#') ∧
        (l.take i).foldl qtoggle (s1, s2) = (false, false) := by
  induction l with
  | nil => intro s1 s2; simp [check003core]
  | cons c cs ih =>
    intro s1 s2
    by_cases hc : c = '#'
    · subst hc
      rw [show check003core ('#' :: cs) s1 s2 = false from by simp [check003core]]
      refine iff_of_false (by simp) ?_
      rintro ⟨i, hi, hj, _⟩
      cases i with
      | zero => simp at hi
      | succ i => exact hj 0 (by omega) (by simp)
    · have hunfold : check003core (c :: cs) s1 s2 =
          if c = ';' && !((qtoggle (s1, s2) c).1 || (qtoggle (s1, s2) c).2) then true
          else check003core cs (qtoggle (s1, s2) c).1 (qtoggle (s1, s2) c).2 := by
        simp only [check003core, if_neg hc]
        rfl
      by_cases hsemi :
          (c = ';' && !((qtoggle (s1, s2) c).1 || (qtoggle (s1, s2) c).2)) = true
      · rw [hunfold, if_pos hsemi]
        simp only [true_iff]
        rw [Bool.and_eq_true, decide_eq_true_eq] at hsemi
        obtain ⟨hcs, hout⟩ := hsemi
        subst hcs
        rw [qtoggle_semi] at hout
        simp only [Bool.not_eq_true', Bool.or_eq_false_iff] at hout
        refine ⟨0, by simp, by omega, ?_⟩
        simp only [List.take_zero, List.foldl_nil]
        rw [hout.1, hout.2]
      · rw [hunfold, if_neg hsemi]
        rw [show (qtoggle (s1, s2) c) = ((qtoggle (s1, s2) c).1, (qtoggle (s1, s2) c).2) from rfl]
        rw [ih]
        constructor
        · rintro ⟨i, hi, hj, hst⟩
          refine ⟨i + 1, by simpa using hi, ?_, ?_⟩
          · intro j hjlt
            cases j with
            | zero => simpa using hc
            | succ j => simpa using hj j (by omega)
          · simpa using hst
        · rintro ⟨i, hi, hj, hst⟩
          cases i with
          | zero =>
            exfalso
            simp only [List.getElem?_cons_zero, Option.some.injEq] at hi
            subst hi
            simp only [List.take_zero, List.foldl_nil, Prod.mk.injEq] at hst
            apply hsemi
            rw [hst.1, hst.2, qtoggle_semi]
            simp
          | succ i =>
            refine ⟨i, by simpa using hi, ?_, ?_⟩
            · intro j hjlt
              have := hj (j + 1) (by omega)
              simpa using this
            · simpa using hst

theorem runChecksOnLine_filter_le (p : String) (l : List Char) (i : Nat)
    (code : String) : ∀ (cs : List LineCheck) (s : Nat),
    ((runChecksOnLine p cs l i s).1.filter (fun d => d.code == code)).length ≤
      (cs.filter (fun c => c.code == code)).length := by
  intro cs
  induction cs with
  | nil => intro s; simp [runChecksOnLine]
  | cons c rest ih =>
    intro s
    have h2 := ih (c.step l s).2
    simp only [runChecksOnLine, execCheckLine, List.filter_append,
      List.length_append, List.filter_cons]
    cases hr : (c.step l s).1 <;> cases hcc : (c.code == code) <;>
      simp [hr, hcc] <;> omega

theorem charListLe_cons_iff (x y : Char) (xs ys : List Char) :
    charListLe (x :: xs) (y :: ys) = true ↔
      x.toNat < y.toNat ∨ (x.toNat = y.toNat ∧ charListLe xs ys = true) := by
  simp only [charListLe]
  by_cases h1 : x.toNat < y.toNat
  · simp [h1]
  · by_cases h2 : x.toNat = y.toNat
    · simp [h1, h2]
    · simp [h1, h2]

theorem charListLe_total : ∀ a b : List Char,
    charListLe a b = true ∨ charListLe b a = true := by
  intro a
  induction a with
  | nil => intro b; left; simp [charListLe]
  | cons x xs ih =>
    intro b
    cases b with
    | nil => right; simp [charListLe]
    | cons y ys =>
      rw [charListLe_cons_iff, charListLe_cons_iff]
      rcases Nat.lt_trichotomy x.toNat y.toNat with h | h | h
      · left; left; exact h
      · rcases ih ys with hr | hr
        · left; right; exact ⟨h, hr⟩
        · right; right; exact ⟨h.symm, hr⟩
      · right; left; exact h

theorem charListLe_trans : ∀ a b c : List Char, charListLe a b = true →
    charListLe b c = true → charListLe a c = true := by
  intro a
  induction a with
  | nil => intro b c _ _; simp [charListLe]
  | cons x xs ih =>
    intro b c hab hbc
    cases b with
    | nil => simp [charListLe] at hab
    | cons y ys =>
      cases c with
      | nil => simp [charListLe] at hbc
      | cons z zs =>
        rw [charListLe_cons_iff] at hab hbc ⊢
        rcases hab with h | ⟨h, hrec⟩ <;> rcases hbc with h2 | ⟨h2, hrec2⟩
        · left; omega
        · left; omega
        · left; omega
        · right; exact ⟨by omega, ih ys zs hrec hrec2⟩

theorem diagLeB_total (a b : Diag) : diagLeB a b = true ∨ diagLeB b a = true := by
  simp only [diagLeB]
  rcases Nat.lt_trichotomy a.lineno b.lineno with h | h | h
  · left; simp [h]
  · rcases charListLe_total a.code.data b.code.data with hc | hc
    · left; simp [h, hc]
    · right; simp [h.symm, hc]
  · right; simp [h]

theorem diagLeB_trans (a b c : Diag) (hab : diagLeB a b = true)
    (hbc : diagLeB b c = true) : diagLeB a c = true := by
  simp only [diagLeB] at hab hbc ⊢
  by_cases h1 : a.lineno < b.lineno <;> by_cases h2 : b.lineno < c.lineno <;>
    simp [h1, h2] at hab hbc ⊢ <;> try omega
  refine Or.elim (Nat.lt_or_ge a.lineno c.lineno) (fun h => Or.inl h) (fun h => ?_)
  right
  refine ⟨by omega, charListLe_trans _ _ _ hab.2 hbc.2⟩

theorem mem_insertSorted (x a : Diag) : ∀ l : List Diag,
    x ∈ insertSorted a l → x = a ∨ x ∈ l := by
  intro l
  induction l with
  | nil => intro h; simpa [insertSorted] using h
  | cons b bs ih =>
    intro h
    simp only [insertSorted] at h
    split at h
    · rw [List.mem_cons] at h
      rcases h with h | h
      · exact Or.inl h
      · exact Or.inr h
    · rw [List.mem_cons] at h
      rcases h with h | h
      · exact Or.inr (by simp [h])
      · rcases ih h with h2 | h2
        · exact Or.inl h2
        · exact Or.inr (by simp [h2])

theorem pairwise_insertSorted (a : Diag) : ∀ l : List Diag,
    List.Pairwise (fun x y => diagLeB x y = true) l →
    List.Pairwise (fun x y => diagLeB x y = true) (insertSorted a l) := by
  intro l
  induction l with
  | nil => intro _; simp [insertSorted]
  | cons b bs ih =>
    intro hp
    rw [List.pairwise_cons] at hp
    obtain ⟨hb, hbs⟩ := hp
    by_cases hab : diagLeB a b = true
    · rw [show insertSorted a (b :: bs) = a :: b :: bs from by
        simp [insertSorted, hab]]
      rw [List.pairwise_cons]
      refine ⟨?_, ?_⟩
      · intro y hy
        rw [List.mem_cons] at hy
        rcases hy with h | h
        · subst h; exact hab
        · exact diagLeB_trans a b y hab (hb y h)
      · rw [List.pairwise_cons]
        exact ⟨hb, hbs⟩
    · rw [show insertSorted a (b :: bs) = b :: insertSorted a bs from by
        simp [insertSorted, hab]]
      rw [List.pairwise_cons]
      refine ⟨?_, ih hbs⟩
      intro y hy
      rcases mem_insertSorted y a bs hy with h | h
      · rw [h]
        rcases diagLeB_total a b with h2 | h2
        · exact absurd h2 hab
        · exact h2
      · exact hb y h

theorem pairwise_sortResults : ∀ ds : List Diag,
    List.Pairwise (fun x y => diagLeB x y = true) (sortResults ds) := by
  intro ds
  induction ds with
  | nil => simp [sortResults]
  | cons d ds ih => exact pairwise_insertSorted d (sortResults ds) ih

theorem matchesNotCamelCase_iff (s : String) :
    matchesNotCamelCase s = true ↔
      ∃ c cs, s.data = c :: cs ∧
        (('a' ≤ c ∧ c ≤ 'z') ∨ ('0' ≤ c ∧ c ≤ '9') ∨ c = '_') := by
  unfold matchesNotCamelCase
  cases h : s.data with
  | nil => simp
  | cons c cs =>
    simp only [Bool.or_eq_true, Bool.and_eq_true, decide_eq_true_eq]
    constructor
    · intro hb
      exact ⟨c, cs, rfl, by tauto⟩
    · rintro ⟨c2, cs2, heq, hp⟩
      cases heq
      tauto

theorem matchesNotSnakeCase_iff (s : String) :
    matchesNotSnakeCase s = true ↔
      ∃ c cs, s.data = c :: cs ∧
        (('A' ≤ c ∧ c ≤ 'Z') ∨ ('0' ≤ c ∧ c ≤ '9')) := by
  unfold matchesNotSnakeCase
  cases h : s.data with
  | nil => simp
  | cons c cs =>
    simp only [Bool.or_eq_true, Bool.and_eq_true, decide_eq_true_eq]
    constructor
    · intro hb
      exact ⟨c, cs, rfl, by tauto⟩
    · rintro ⟨c2, cs2, heq, hp⟩
      cases heq
      tauto

theorem nodeDiags_lineno (p : String) (n : PyNode) (ln : Nat) (d : Diag)
    (h : d ∈ nodeDiags p n ln) : d.lineno = ln := by
  simp only [nodeDiags, List.mem_filterMap] at h
  obtain ⟨c, _, hc⟩ := h
  split at hc
  · cases hc; rfl
  · cases hc

theorem nodeDiags_module (p : String) (body : List PyNode) (ln : Nat) :
    nodeDiags p (.module body) ln = [] := rfl

theorem walkNode_pos (p : String) : ∀ (n : PyNode) (ln : Nat),
    allPos n = true → ∀ d ∈ (walkNode p n ln).1, 1 ≤ d.lineno := by
  intro n ln
  refine walkNode.induct p
    (fun m _ => ∀ ln2, allPos m = true → ∀ d ∈ (walkNode p m ln2).1, 1 ≤ d.lineno)
    (fun ms _ => ∀ ln2, allPosList ms = true → ∀ d ∈ (walkList p ms ln2).1, 1 ≤ d.lineno)
    ?_ ?_ ?_ ?_ ?_ ?_ ?_ ?_ ?_ ?_ ?_ ?_ ?_ ?_ ?_ ?_ ?_ n ln ln
  · intro _ body ih ln2 hall d hd
    simp only [walkNode, nodeDiags_module, List.nil_append] at hd
    simp only [allPos] at hall
    exact ih ln2 hall d hd
  · intro _ ln1 nm body ih ln2 hall d hd
    simp only [walkNode, List.mem_append] at hd
    simp only [allPos, Bool.and_eq_true, decide_eq_true_eq] at hall
    rcases hd with h | h
    · rw [nodeDiags_lineno p _ ln1 d h]; exact hall.1
    · exact ih ln1 hall.2 d h
  · intro _ ln1 nm args ds kds body r1 r2 ih1 ih2 ih3 ln2 hall d hd
    simp only [walkNode, List.mem_append] at hd
    simp only [allPos, Bool.and_eq_true, decide_eq_true_eq] at hall
    rcases hd with ((h | h) | h) | h
    · rw [nodeDiags_lineno p _ ln1 d h]; exact hall.1.1.1
    · exact ih1 ln1 hall.1.1.2 d h
    · exact ih2 _ hall.1.2 d h
    · exact ih3 _ hall.2 d h
  · intro _ ln1 nm args ds kds body r1 r2 ih1 ih2 ih3 ln2 hall d hd
    simp only [walkNode, List.mem_append] at hd
    simp only [allPos, Bool.and_eq_true, decide_eq_true_eq] at hall
    rcases hd with ((h | h) | h) | h
    · rw [nodeDiags_lineno p _ ln1 d h]; exact hall.1.1.1
    · exact ih1 ln1 hall.1.1.2 d h
    · exact ih2 _ hall.1.2 d h
    · exact ih3 _ hall.2 d h
  · intro _ ln1 targets v r1 ih1 ih2 ln2 hall d hd
    simp only [walkNode, List.mem_append] at hd
    simp only [allPos, Bool.and_eq_true, decide_eq_true_eq] at hall
    rcases hd with (h | h) | h
    · rw [nodeDiags_lineno p _ ln1 d h]; exact hall.1.1
    · exact ih1 ln1 hall.1.2 d h
    · exact ih2 _ hall.2 d h
  · intro _ ln1 t v r1 ih1 ih2 ln2 hall d hd
    simp only [walkNode, List.mem_append] at hd
    simp only [allPos, Bool.and_eq_true, decide_eq_true_eq] at hall
    rcases hd with (h | h) | h
    · rw [nodeDiags_lineno p _ ln1 d h]; exact hall.1.1
    · exact ih1 ln1 hall.1.2 d h
    · exact ih2 _ hall.2 d h
  · intro _ ln1 t v r1 ih1 ih2 ln2 hall d hd
    simp only [walkNode, List.mem_append] at hd
    simp only [allPos, Bool.and_eq_true, decide_eq_true_eq] at hall
    rcases hd with (h | h) | h
    · rw [nodeDiags_lineno p _ ln1 d h]; exact hall.1.1
    · exact ih1 ln1 hall.1.2 d h
    · exact ih2 _ hall.2 d h
  · intro _ ln1 id ln2 hall d hd
    simp only [walkNode] at hd
    simp only [allPos, decide_eq_true_eq] at hall
    rw [nodeDiags_lineno p _ ln1 d hd]; exact hall
  · intro _ ln1 ln2 hall d hd
    simp only [walkNode] at hd
    simp only [allPos, decide_eq_true_eq] at hall
    rw [nodeDiags_lineno p _ ln1 d hd]; exact hall
  · intro _ ln1 elts ih ln2 hall d hd
    simp only [walkNode, List.mem_append] at hd
    simp only [allPos, Bool.and_eq_true, decide_eq_true_eq] at hall
    rcases hd with h | h
    · rw [nodeDiags_lineno p _ ln1 d h]; exact hall.1
    · exact ih ln1 hall.2 d h
  · intro _ ln1 elts ih ln2 hall d hd
    simp only [walkNode, List.mem_append] at hd
    simp only [allPos, Bool.and_eq_true, decide_eq_true_eq] at hall
    rcases hd with h | h
    · rw [nodeDiags_lineno p _ ln1 d h]; exact hall.1
    · exact ih ln1 hall.2 d h
  · intro _ ln1 elts ih ln2 hall d hd
    simp only [walkNode, List.mem_append] at hd
    simp only [allPos, Bool.and_eq_true, decide_eq_true_eq] at hall
    rcases hd with h | h
    · rw [nodeDiags_lineno p _ ln1 d h]; exact hall.1
    · exact ih ln1 hall.2 d h
  · intro _ ln1 elts ih ln2 hall d hd
    simp only [walkNode, List.mem_append] at hd
    simp only [allPos, Bool.and_eq_true, decide_eq_true_eq] at hall
    rcases hd with h | h
    · rw [nodeDiags_lineno p _ ln1 d h]; exact hall.1
    · exact ih ln1 hall.2 d h
  · intro _ ln1 children ih ln2 hall d hd
    simp only [walkNode, List.mem_append] at hd
    simp only [allPos, Bool.and_eq_true, decide_eq_true_eq] at hall
    rcases hd with h | h
    · rw [nodeDiags_lineno p _ ln1 d h]; exact hall.1
    · exact ih ln1 hall.2 d h
  · intro _ ln1 children ih ln2 hall d hd
    simp only [walkNode, List.mem_append] at hd
    simp only [allPos, Bool.and_eq_true, decide_eq_true_eq] at hall
    rcases hd with h | h
    · rw [nodeDiags_lineno p _ ln1 d h]; exact hall.1
    · exact ih ln1 hall.2 d h
  · intro _ ln2 hall d hd
    simp only [walkList] at hd
    simp at hd
  · intro _ m rest r1 ihn ihrest ln2 hall d hd
    simp only [walkList, List.mem_append] at hd
    simp only [allPosList, Bool.and_eq_true] at hall
    rcases hd with h | h
    · exact ihn ln2 hall.1 d h
    · exact ihrest _ hall.2 d h

/-! ### The claims -/

/-- Claim C1: the claim states that independent files analyzed in one
process never share state because the blank-line counter of check 006
is reset before each new file.  The code has no such reset: the class
attribute survives the end of a file, so a file of three blank lines
followed by a clean one-line file makes the second file report S006 on
its first line, while the same file analyzed alone with fresh state
reports nothing.  This theorem evaluates both runs of the embedded
program at that failing input. -/
theorem blankLineCounterLeaksAcrossFiles :
    mainRun [("a.py", fileBlank3), ("b.py", fileAssign)] 0 =
      (["b.py: Line 1: S006 Too many blank lines"], true) ∧
    mainRun [("b.py", fileAssign)] 0 = ([], true) :=
  ⟨rfl, rfl⟩

/-- Claim C2: the claim states that running the analyzer twice in
succession on an unchanged file yields byte-identical output.  Within
one process the blank-line counter of check 006 persists between runs:
a file whose assignment line is followed by three blank lines prints
nothing on the first run, yet the second run in succession starts with
the counter at 3 and prints an S006 diagnostic for line 1.  This
theorem evaluates both successive runs at that failing input. -/
theorem secondRunOutputDiffersAfterTrailingBlanks :
    (runFile 0 "f.py" fileTrailingBlanks).1 = Except.ok [] ∧
    (runFile (runFile 0 "f.py" fileTrailingBlanks).2 "f.py"
        fileTrailingBlanks).1 =
      Except.ok ["f.py: Line 1: S006 Too many blank lines"] :=
  ⟨rfl, rfl⟩

/-- Claim C3, counterexample: a line of three spaces followed by a
newline consists entirely of whitespace, yet check 002 fires on it,
because lstrip with a space argument leaves the newline in place and
the three leading spaces are counted. -/
theorem allWhitespaceLineFires002 :
    (pystr "   \n").all isPySpace = true ∧ check002 (pystr "   \n") = true := by
  decide

/-- Claim C3, amended: check 002 fires on a line exactly when the count
of its leading space characters is not a multiple of four.  A blank
line with no leading spaces counts 0 and is exempt, but a line of pure
whitespace is not exempt in general: its leading spaces are counted
like those of any other line. -/
theorem check002_iff_leadingSpaceCount (l : List Char) :
    check002 l = true ↔ countLeadingSpaces l % 4 ≠ 0 := by
  have h := congrArg List.length
    (List.takeWhile_append_dropWhile (fun c => decide (c = ' ')) l)
  rw [List.length_append] at h
  simp only [check002, pyLstripSpaces, countLeadingSpaces, bne_iff_ne, ne_eq,
    decide_not]
  constructor
  · intro hx hy; apply hx; omega
  · intro hx hy; apply hx; omega

/-- Claim C4, counterexample: the line with a badly spaced first hash
and a well spaced second hash contains a hash away from column 0 whose
two preceding characters are not both spaces, so the claim says check
004 fires; the code tests for the substring of two spaces and a hash
anywhere in the line, finds it before the second hash, and does not
fire. -/
theorem wellSpacedSecondHashMasks004 :
    claim004fires (pystr "x = 1 # c  # d") = true ∧
    check004 (pystr "x = 1 # c  # d") = false := by
  decide

/-- Claim C4, amended: check 004 fires on a line exactly when the line
does not start with a hash, contains a hash, and no hash anywhere in
the line has two spaces immediately before it.  The two firing
examples of the spec hold as stated. -/
theorem check004_iff_noDoubleSpacedHash :
    (∀ l : List Char, check004 l = true ↔
      startsHash l = false ∧ (∃ i : Nat, l[i]? = some '#') ∧
        ∀ i : Nat, l[i]? = some '#' →
          ¬(2 ≤ i ∧ l[i - 2]? = some ' ' ∧ l[i - 1]? = some ' ')) ∧
    check004 (pystr "x = 1 # c") = true ∧
    check004 (pystr "x = 1  # c") = false := by
  refine ⟨?_, by decide, by decide⟩
  intro l
  unfold check004
  rw [Bool.and_eq_true, Bool.and_eq_true, Bool.not_eq_true', Bool.not_eq_true']
  have hc : l.contains '#' = true ↔ ∃ i : Nat, l[i]? = some '#' := by
    simp [List.mem_iff_getElem?]
  have hs : hasSub (pystr "  #") l = false ↔
      ¬(∃ j : Nat, l[j]? = some ' ' ∧ l[j + 1]? = some ' ' ∧ l[j + 2]? = some '#') := by
    rw [← hasSub_spaces_hash_iff]
    exact ⟨fun h => by simp [h], fun h => by simpa using h⟩
  rw [hc, hs]
  constructor
  · rintro ⟨⟨h1, h2⟩, h3⟩
    refine ⟨h1, h2, ?_⟩
    rintro i hi ⟨h2i, hsp2, hsp1⟩
    refine h3 ⟨i - 2, hsp2, ?_, ?_⟩
    · rw [show i - 2 + 1 = i - 1 by omega]; exact hsp1
    · rw [show i - 2 + 2 = i by omega]; exact hi
  · rintro ⟨h1, h2, h3⟩
    refine ⟨⟨h1, h2⟩, ?_⟩
    rintro ⟨j, hj1, hj2, hj3⟩
    refine h3 (j + 2) hj3 ⟨by omega, ?_, ?_⟩
    · rw [show j + 2 - 2 = j by omega]; exact hj1
    · rw [show j + 2 - 1 = j + 1 by omega]; exact hj2

/-- Claim C5: check 003 fires on a line exactly when some semicolon
occurs outside both single- and double-quoted spans, the quote state
being the simple per-quote-character toggle, and before the first hash
of the line; the check produces at most one S003 diagnostic per line;
and the three semicolon examples of the spec evaluate as stated. -/
theorem semicolonOutsideQuotesCharacterization :
    (∀ l : List Char, check003 l = true ↔
      ∃ i : Nat, l[i]? = some ';' ∧ (∀ j, j < i → l[j]? ≠ some '#') ∧
        (l.take i).foldl qtoggle (false, false) = (false, false)) ∧
    (∀ (p : String) (l : List Char) (i s : Nat),
      ((runChecksOnLine p lineChecks l i s).1.filter
        (fun d => d.code == "S003")).length ≤ 1) ∧
    check003 (pystr "x = 1; y = 2\n") = true ∧
    check003 (pystr "s = \x22a;b\x22\n") = false ∧
    check003 (pystr ("s = " ++ sq ++ "a;b" ++ sq ++ " ; # c;d\n")) = true := by
  refine ⟨?_, ?_, by decide, by decide, by decide⟩
  · intro l
    exact check003core_iff l false false
  · intro p l i s
    have h := runChecksOnLine_filter_le p l i "S003" lineChecks s
    rw [show (lineChecks.filter (fun c => c.code == "S003")).length = 1
      from rfl] at h
    exact h

/-- Claim C6, counterexample: the one-line file assigning to A and to B
in two semicolon-separated statements yields three diagnostics whose
sort keys are S003 once and S011 twice, all on line 1; the two S011
entries carry equal line number and equal code, so the printed order is
not strict in the claimed sense. -/
theorem duplicateSortKeysInOutput :
    (runFileDiags 0 "t.py" linesTwoAssigns treeTwoAssigns).map
        (fun d => (d.lineno, d.code)) =
      [(1, "S003"), (1, "S011"), (1, "S011")] ∧
    ¬ List.Pairwise
        (fun a b : Diag =>
          a.lineno < b.lineno ∨
            (a.lineno = b.lineno ∧ charListLe a.code.data b.code.data = true ∧
              a.code.data ≠ b.code.data))
        (runFileDiags 0 "t.py" linesTwoAssigns treeTwoAssigns) := by
  constructor
  · rfl
  · decide

/-- Claim C6, amended: the diagnostics printed for a file are sorted in
nondecreasing order of the pair of line number and code string; the
order is weak rather than strict, because one tree check can fire on
several nodes of the same line and then equal pairs repeat. -/
theorem outputSortedByLineThenCode (st : Nat) (p : String)
    (ls : List (List Char)) (t : PyNode) :
    List.Pairwise (fun a b => diagLeB a b = true) (runFileDiags st p ls t) :=
  pairwise_sortResults _

/-- Claim C7, counterexample: a function whose only default value is
the mutable list literal of a keyword-only parameter has a default
parameter value that is a mutable literal, so the claim says check 012
fires; the code inspects only the positional defaults list, which is
empty here, and does not fire. -/
theorem kwOnlyMutableDefaultNotFlagged :
    claim012fires kwOnlyMutableDefaultFn = true ∧
    check012 kwOnlyMutableDefaultFn = false := by
  decide

/-- Claim C7, amended: check 012 fires on a function or async-function
definition exactly when some positional default value is a mapping,
sequence or set literal; keyword-only defaults are not inspected.  A
list-literal default fires, a constant default does not, and a
tuple-literal default does not. -/
theorem check012_positionalMutableDefaultsOnly :
    (∀ (ln : Nat) (nm : String) (args : List String)
        (ds kds body : List PyNode),
      (check012 (.functionDef ln nm args ds kds body) = true ↔
        ∃ d ∈ ds, isMutableLiteral d = true) ∧
      (check012 (.asyncFunctionDef ln nm args ds kds body) = true ↔
        ∃ d ∈ ds, isMutableLiteral d = true)) ∧
    check012 (.functionDef 1 "f" ["x"] [.listLit 1 []] [] [.constant 1]) = true ∧
    check012 (.functionDef 1 "f" ["x"] [.constant 1] [] [.constant 1]) = false ∧
    check012 (.functionDef 1 "f" ["x"] [.tupleLit 1 []] [] [.constant 1]) = false := by
  refine ⟨?_, by decide, by decide, by decide⟩
  intro ln nm args ds kds body
  constructor <;> simp [check012, List.any_eq_true]

/-- Claim C8: when the text of a file cannot be parsed, the parse step
of the tree engine fails and nothing catches the failure: the run of
that file produces an error instead of output, nothing is printed for
that file, and the per-file loop of main stops there, so no later file
is analyzed. -/
theorem parseFailureAbortsWholeRun (st : Nat) (p : String)
    (ls : List (List Char)) (rest : List (String × PyFile)) :
    (runFile st p ⟨ls, none⟩).1 = Except.error () ∧
    mainRun ((p, ⟨ls, none⟩) :: rest) st = ([], false) := by
  constructor
  · simp [runFile]
  · simp [mainRun, runFile]

/-- Claim C9: the naming checks are prefix tests only.  Check 008 fires
on a class definition exactly when the class name begins with a
lowercase letter, digit or underscore; check 009 fires on a function or
async-function definition exactly when the name begins with an
uppercase letter or digit; and a name with mixed case after its first
character, such as my_Func, is not flagged by 009. -/
theorem namingChecksArePrefixTestsOnly :
    (∀ (ln : Nat) (nm : String) (body : List PyNode),
      check008 (.classDef ln nm body) = true ↔
        ∃ c cs, nm.data = c :: cs ∧
          (('a' ≤ c ∧ c ≤ 'z') ∨ ('0' ≤ c ∧ c ≤ '9') ∨ c = '_')) ∧
    (∀ (ln : Nat) (nm : String) (args : List String)
        (ds kds body : List PyNode),
      (check009 (.functionDef ln nm args ds kds body) = true ↔
        ∃ c cs, nm.data = c :: cs ∧
          (('A' ≤ c ∧ c ≤ 'Z') ∨ ('0' ≤ c ∧ c ≤ '9'))) ∧
      (check009 (.asyncFunctionDef ln nm args ds kds body) = true ↔
        ∃ c cs, nm.data = c :: cs ∧
          (('A' ≤ c ∧ c ≤ 'Z') ∨ ('0' ≤ c ∧ c ≤ '9')))) ∧
    check009 (.functionDef 1 "my_Func" [] [] [] []) = false := by
  refine ⟨?_, ?_, by decide⟩
  · intro ln nm body
    exact matchesNotCamelCase_iff nm
  · intro ln nm args ds kds body
    exact ⟨matchesNotSnakeCase_iff nm, matchesNotSnakeCase_iff nm⟩

/-- Claim C10: the tree checks can fire only on the statement node
kinds of class definitions, function and async-function definitions
and the three assignment forms; for every statement or expression node
the walk result is independent of the running line value the engine
carries into it, because the node installs its own lineno before its
checks run; and consequently, on a tree whose nodes all carry positive
linenos, as every parsed tree does, no tree diagnostic reports the
initial line value 0 of the engine. -/
theorem treeDiagnosticsCarryNodeLineno :
    (∀ n : PyNode, (treeChecks.any fun c => c.fires n) = true →
      isCheckableStmt n = true) ∧
    (∀ (p : String) (n : PyNode) (ln ln2 : Nat), isStmtOrExpr n = true →
      walkNode p n ln = walkNode p n ln2) ∧
    (∀ (p : String) (t : PyNode) (d : Diag), allPos t = true →
      d ∈ astDiags p t → 1 ≤ d.lineno) := by
  refine ⟨?_, ?_, ?_⟩
  · intro n h
    cases n <;>
      simp [treeChecks, check008, check009, check010, check011, check012,
        assignTarget, isCheckableStmt, List.any_eq_true] at h ⊢
  · intro p n ln ln2 h
    cases n <;> try rfl
    simp [isStmtOrExpr] at h
  · intro p t d hall hd
    exact walkNode_pos p t 0 hall d hd

/-- Claim C10, witness: the theorem applied to a concrete tree with one
assignment on line 3, whose single S011 diagnostic indeed carries a
positive line number. -/
theorem treeDiagnosticsCarryNodeLineno_witness :
    1 ≤ (Diag.mk 3 "S011" (mkMessage "t.py" 3 "S011"
      ("Variable " ++ sq ++ "X" ++ sq ++ " in function should be snake_case"))).lineno :=
  treeDiagnosticsCarryNodeLineno.2.2 "t.py" treeOneAssign
    (Diag.mk 3 "S011" (mkMessage "t.py" 3 "S011"
      ("Variable " ++ sq ++ "X" ++ sq ++ " in function should be snake_case")))
    (by decide) (by decide)

end CodeAnalyzer
